import Mathlib

/-!
Verification of the WAV container codec and the VAD segmentation pipeline of
the hono-audio-api repository.

Modeling conventions (shallow embedding of the TypeScript source):
- an `ArrayBuffer` is a `List Nat` of byte values (each value produced by the
  encoder is `< 256`);
- a signed 16-bit sample (`Int16Array` element) is an `Int` in `[-32768, 32768)`;
- JavaScript numbers used for times, probabilities and percentages are modeled
  as exact rationals (`ℚ`); IEEE-754 special values (division by a zero sample
  rate yielding Infinity/NaN) are outside this model, and the theorems that
  depend on time arithmetic therefore carry a positive-sample-rate hypothesis;
- a `DataView` read that can go out of range returns `Option Nat` here, `none`
  standing for the `RangeError` the JavaScript runtime throws;
- a thrown exception is an `Except.error`; fallible stages return `Except`.

The sources embedded are `src/lib/audio/audio-service.ts` (class AudioService)
and `src/services/vad-service.ts` (class VADService), with
`VAD_CONFIG.HOP_SIZE = 256` from `src/lib/vad/vadLoader.ts`.
-/

namespace AudioApi

/-- `DataView.getUint8(i)`: the byte at index `i`, `none` when the access is
out of range (the JavaScript runtime throws a RangeError there). -/
def byteAt : List Nat → Nat → Option Nat
  | [], _ => none
  | x :: _, 0 => some x
  | _ :: rest, n + 1 => byteAt rest n

/-- `DataView.getUint16(i, true)`; `none` models the RangeError thrown on an
out-of-range access. -/
def readU16 (b : List Nat) (i : Nat) : Option Nat :=
  match byteAt b i, byteAt b (i + 1) with
  | some x0, some x1 => some (x0 + 256 * x1)
  | _, _ => none

/-- `DataView.getUint32(i, true)`; `none` models the RangeError. -/
def readU32 (b : List Nat) (i : Nat) : Option Nat :=
  match byteAt b i, byteAt b (i + 1), byteAt b (i + 2), byteAt b (i + 3) with
  | some x0, some x1, some x2, some x3 =>
      some (x0 + 256 * x1 + 65536 * x2 + 16777216 * x3)
  | _, _, _, _ => none

/-- The four `getUint8` reads used to build a 4-character chunk/header tag via
`String.fromCharCode`; `none` models the RangeError. -/
def readTag (b : List Nat) (i : Nat) : Option (List Nat) :=
  match byteAt b i, byteAt b (i + 1), byteAt b (i + 2), byteAt b (i + 3) with
  | some x0, some x1, some x2, some x3 => some [x0, x1, x2, x3]
  | _, _, _, _ => none

/-- The errors `parseWAVHeader` can raise.  The first five are the
`throw new Error(...)` cases of the source (the spec's FormatError kinds);
`rangeError` is the RangeError a `DataView` read throws when the buffer is
too short for the access. -/
inductive WAVError where
  | missingRIFF
  | notWAVE
  | notPCM
  | not16bit
  | noDataChunk
  | rangeError
deriving DecidableEq

/-- The spec's FormatError classification: every error `parseWAVHeader` itself
throws is a FormatError; a RangeError escaping from `DataView` is not. -/
def WAVError.isFormatError : WAVError → Bool
  | .rangeError => false
  | _ => true

/-- Outcome of the chunk-walk loop of `parseWAVHeader` (lines 62-95):
either the `data` chunk was found (with the `fmt ` values collected so far),
or the loop ran off the end of the buffer with no `data` chunk. -/
inductive WalkResult where
  | found (dataOffset dataSize sampleRate channels bitsPerSample : Nat)
  | noData (sampleRate channels bitsPerSample : Nat)
deriving DecidableEq

/-- The chunk-walk loop of `parseWAVHeader`.  The loop guard
`offset < buffer.byteLength - 8` is written `offset + 8 < b.length`
(equivalent over the non-negative values involved).  The even-alignment rule
`offset += 8 + chunkSize; if (chunkSize % 2 === 1) offset++` is written as
adding `chunkSize % 2`, which is 1 exactly when `chunkSize` is odd.
Inside a `fmt ` chunk the four field reads happen before the two format
validations, as in the source. -/
def chunkWalk (b : List Nat) (offset sampleRate channels bitsPerSample : Nat) :
    Except WAVError WalkResult :=
  if _h : offset + 8 < b.length then
    match readTag b offset, readU32 b (offset + 4) with
    | some tag, some chunkSize =>
      if tag = [102, 109, 116, 32] then
        match readU16 b (offset + 8), readU16 b (offset + 10),
              readU32 b (offset + 12), readU16 b (offset + 22) with
        | some audioFormat, some ch, some sr, some bps =>
          if audioFormat ≠ 1 then .error .notPCM
          else if bps ≠ 16 then .error .not16bit
          else chunkWalk b (offset + 8 + chunkSize + chunkSize % 2) sr ch bps
        | _, _, _, _ => .error .rangeError
      else if tag = [100, 97, 116, 97] then
        .ok (.found (offset + 8) chunkSize sampleRate channels bitsPerSample)
      else
        chunkWalk b (offset + 8 + chunkSize + chunkSize % 2)
          sampleRate channels bitsPerSample
    | _, _ => .error .rangeError
  else
    .ok (.noData sampleRate channels bitsPerSample)
termination_by b.length - offset
decreasing_by
  all_goals omega

/-- The parsed header.  The source additionally computes two derived fields
`totalSamples` and `samplesPerChannel` by floating-point division (yielding
Infinity/NaN when `bitsPerSample` or `channels` is 0); no claim and no other
code under `src/` reads them, so they are not modeled. -/
structure WAVInfo where
  sampleRate : Nat
  channels : Nat
  bitsPerSample : Nat
  dataOffset : Nat
  dataSize : Nat
deriving DecidableEq

/-- `AudioService.parseWAVHeader` (audio-service.ts lines 35-110). -/
def parseWAVHeader (b : List Nat) : Except WAVError WAVInfo :=
  match readTag b 0 with
  | none => .error .rangeError
  | some riff =>
    if riff = [82, 73, 70, 70] then
      match readTag b 8 with
      | none => .error .rangeError
      | some wave =>
        if wave = [87, 65, 86, 69] then
          match chunkWalk b 12 0 0 0 with
          | .error e => .error e
          | .ok (.noData _ _ _) => .error .noDataChunk
          | .ok (.found dOff dSize sr ch bps) => .ok ⟨sr, ch, bps, dOff, dSize⟩
        else .error .notWAVE
    else .error .missingRIFF

/-- Reinterpret an unsigned 16-bit value as a signed `Int16Array` element. -/
def toInt16 (u : Nat) : Int :=
  if u < 32768 then (u : Int) else (u : Int) - 65536

/-- Reinterpret a byte list as the elements of an `Int16Array`
(little-endian pairs).  The JavaScript `Int16Array` constructor throws when
the byte length is odd; callers below check the parity before using this. -/
def bytesToInt16 : List Nat → List Int
  | b0 :: b1 :: rest => toInt16 (b0 + 256 * b1) :: bytesToInt16 rest
  | _ => []

/-- `AudioService.extractMonoAudio` (lines 115-130).  `buffer.slice` clamps,
hence `drop`/`take`; `none` models the RangeError `new Int16Array(buffer)`
throws when the sliced byte length is odd.  For a multi-channel file only the
first channel is kept (`raw[i * channels]`). -/
def extractMonoAudio (b : List Nat) (w : WAVInfo) : Option (List Int) :=
  let audioBytes := (b.drop w.dataOffset).take w.dataSize
  if audioBytes.length % 2 = 1 then none
  else
    let raw := bytesToInt16 audioBytes
    if w.channels > 1 then
      some ((List.range (raw.length / w.channels)).map fun i =>
        raw.getD (i * w.channels) 0)
    else some raw

/-- One speech segment (type AudioSegment of the source). -/
structure Segment where
  startFrame : Nat
  endFrame : Nat
  startTime : ℚ
  endTime : ℚ
  data : List Int
  isSpeech : Bool
  probability : ℚ
deriving DecidableEq

/-- `AudioService.mergeAudioSegments` (lines 135-151): an empty list yields an
empty buffer, otherwise the segments' sample arrays are copied one after the
other in list order, i.e. concatenated. -/
def mergeAudioSegments (segments : List Segment) : List Int :=
  if segments.isEmpty then []
  else (segments.map fun s => s.data).flatten

/-- The two bytes an `Int16Array` element occupies (two's complement,
little-endian). -/
def int16ToBytes (s : Int) : List Nat :=
  let u := (s % 65536).toNat
  [u % 256, u / 256]

/-- The raw sample bytes of an `Int16Array`. -/
def int16sToBytes : List Int → List Nat
  | [] => []
  | s :: rest => int16ToBytes s ++ int16sToBytes rest

/-- `AudioService.createWAVBuffer` (lines 156-202): fixed 44-byte header
followed by the raw samples.  A `setUint32(o, v, true)` stores the bytes
`v / 256^k % 256` for `k = 0..3` at offsets `o..o+3` (this truncates to
`v mod 2^32` exactly as the store does), a `setUint16` stores `k = 0..1`.
The header below lists the 44 bytes in offset order: "RIFF", file size - 8,
"WAVE", "fmt ", fmt-chunk size 16, PCM format 1, channels, sample rate,
byte rate, block align, bits per sample 16, "data", data size. -/
def createWAVBuffer (audioData : List Int) (sampleRate : Nat) (channels : Nat) :
    List Nat :=
  let dataSize := 2 * audioData.length
  let totalSize := 44 + dataSize
  let fileSize := totalSize - 8
  let byteRate := sampleRate * channels * 2
  let blockAlign := channels * 2
  [82, 73, 70, 70,
   fileSize % 256, fileSize / 256 % 256,
   fileSize / 65536 % 256, fileSize / 16777216 % 256,
   87, 65, 86, 69,
   102, 109, 116, 32,
   16, 0, 0, 0,
   1, 0,
   channels % 256, channels / 256 % 256,
   sampleRate % 256, sampleRate / 256 % 256,
   sampleRate / 65536 % 256, sampleRate / 16777216 % 256,
   byteRate % 256, byteRate / 256 % 256,
   byteRate / 65536 % 256, byteRate / 16777216 % 256,
   blockAlign % 256, blockAlign / 256 % 256,
   16, 0,
   100, 97, 116, 97,
   dataSize % 256, dataSize / 256 % 256,
   dataSize / 65536 % 256, dataSize / 16777216 % 256] ++
  int16sToBytes audioData

/-- `AudioService.filterSpeechSegments` (lines 215-226). -/
def filterSpeechSegments (segments : List Segment)
    (minDurationMs minProbability : ℚ) : List Segment :=
  segments.filter fun s =>
    s.isSpeech && decide ((s.endTime - s.startTime) * 1000 ≥ minDurationMs)
      && decide (s.probability ≥ minProbability)

/-- The normalized result of one call to the external classifier
`processAudioFrame`. -/
structure FrameResult where
  probability : ℚ
  isSpeech : Bool
deriving DecidableEq

/-- The external frame classifier.  It keeps private adaptive state across
calls within one run, so it is modeled as an oracle receiving the frame index
and the frame samples; `none` models a thrown classification error, which the
source catches and logs (partial-failure tolerance). -/
def Classifier : Type := Nat → List Int → Option FrameResult

/-- The frame slice `audioData.slice(i*256, min(i*256 + 256, length))` built
by the loop of `VADService.processAudioWithVAD` (lines 36-38).  The source
then contains a pad branch (lines 41-45) guarded by `frameData.length < 256`;
the loop only visits `i < floor(length / 256)`, for which the slice always has
exactly 256 samples (theorem `frameData_length_eq` below), so that branch is
unreachable and is not modeled.  (Were it reached, its `frameData.set(paddedFrame)`
with a 256-element source would itself throw a RangeError.) -/
def frameData (audioData : List Int) (i : Nat) : List Int :=
  let frameStart := i * 256
  let frameEnd := min (frameStart + 256) audioData.length
  (audioData.drop frameStart).take (frameEnd - frameStart)

/-- The mutable state of the accumulation loop of
`VADService.processAudioWithVAD`. -/
structure AccState where
  speechFrames : Nat
  totalProbability : ℚ
  segments : List Segment
  currentSegment : Option Segment
deriving DecidableEq

/-- One iteration of the loop of `VADService.processAudioWithVAD`
(lines 35-92) at frame index `i`.  A classification error (`none`) skips the
whole body of the `try` block: aggregates are untouched and an open segment
stays open. -/
def step (classify : Classifier) (audioData : List Int) (sampleRate : ℚ)
    (st : AccState) (i : Nat) : AccState :=
  let frameStart := i * 256
  let frameEnd := min (frameStart + 256) audioData.length
  let fd := frameData audioData i
  match classify i fd with
  | none => st
  | some r =>
    let st1 : AccState := { st with totalProbability := st.totalProbability + r.probability }
    let frameTime : ℚ := (frameStart : ℚ) / sampleRate
    if r.isSpeech then
      let st2 : AccState := { st1 with speechFrames := st1.speechFrames + 1 }
      match st2.currentSegment with
      | none =>
        { st2 with currentSegment := some {
            startFrame := frameStart
            endFrame := frameEnd
            startTime := frameTime
            endTime := frameTime + 256 / sampleRate
            data := fd
            isSpeech := true
            probability := r.probability } }
      | some cs =>
        { st2 with currentSegment := some { cs with
            endFrame := frameEnd
            endTime := frameTime + 256 / sampleRate
            data := cs.data ++ fd
            probability := (cs.probability + r.probability) / 2 } }
    else
      match st1.currentSegment with
      | some cs => { st1 with segments := st1.segments ++ [cs], currentSegment := none }
      | none => st1

/-- The loop starts with empty aggregates and no open segment. -/
def initState : AccState := ⟨0, 0, [], none⟩

/-- The VADResult of the source, minus the wall-clock `processingTime` field
(`Date.now()` deltas are not modeled). -/
structure VADResult where
  totalFrames : Nat
  speechFrames : Nat
  speechPercentage : ℚ
  hasSpeech : Bool
  avgProbability : ℚ
  segments : List Segment
deriving DecidableEq

/-- `VADService.processAudioWithVAD` (vad-service.ts lines 13-112) with
`VAD_CONFIG.HOP_SIZE = 256`.  The trailing open segment is pushed after the
loop (lines 95-97). -/
def processAudioWithVAD (classify : Classifier) (audioData : List Int)
    (sampleRate : ℚ) : VADResult :=
  let frameCount := audioData.length / 256
  let final := (List.range frameCount).foldl (step classify audioData sampleRate) initState
  { totalFrames := frameCount
    speechFrames := final.speechFrames
    speechPercentage :=
      if 0 < frameCount then ((final.speechFrames : ℚ) / (frameCount : ℚ)) * 100 else 0
    hasSpeech := decide (0 < final.speechFrames)
    avgProbability :=
      if 0 < frameCount then final.totalProbability / (frameCount : ℚ) else 0
    segments := final.segments ++ final.currentSegment.toList }

/-- Result record of `VADService.extractSpeechSegments`. -/
structure ExtractOut where
  originalBuffer : List Nat
  processedBuffer : List Nat
  vadResult : VADResult
  speechFound : Bool
deriving DecidableEq

/-- `VADService.extractSpeechSegments` (vad-service.ts lines 117-199), taken
from the decoded byte buffer onward (the base64 transport decoding of
`AudioService.base64ToArrayBuffer` is a plain encoding wrapper and is not
modeled).  An empty filtered list returns the original buffer with
`speechFound = false`; otherwise the filtered segments are merged and
re-encoded as a mono WAV at the parsed sample rate. -/
def extractSpeechSegments (classify : Classifier) (originalBuffer : List Nat)
    (minDurationMs minProbability : ℚ) : Except WAVError ExtractOut :=
  match parseWAVHeader originalBuffer with
  | .error e => .error e
  | .ok wavInfo =>
    match extractMonoAudio originalBuffer wavInfo with
    | none => .error .rangeError
    | some mono =>
      let vadResult := processAudioWithVAD classify mono (wavInfo.sampleRate : ℚ)
      let filtered := filterSpeechSegments vadResult.segments minDurationMs minProbability
      if filtered.isEmpty then
        .ok ⟨originalBuffer, originalBuffer, vadResult, false⟩
      else
        .ok ⟨originalBuffer,
             createWAVBuffer (mergeAudioSegments filtered) wavInfo.sampleRate 1,
             vadResult, true⟩

/-- Whether the classifier reports frame `i` as speech (used to relate the
segment list to maximal speech runs). -/
def speechAt (classify : Classifier) (audioData : List Int) (i : Nat) : Bool :=
  match classify i (frameData audioData i) with
  | some r => r.isSpeech
  | none => false

/-- Run counter transition: `(count, inRun)` consuming one boolean. -/
def runStep : Nat × Bool → Bool → Nat × Bool
  | (c, inRun), b => if b then (if inRun then (c, true) else (c + 1, true)) else (c, false)

/-- Number of maximal contiguous runs of `true` in a boolean list. -/
def countRuns (bs : List Bool) : Nat := (bs.foldl runStep (0, false)).1

/-- The list of frame slices the loop of `processAudioWithVAD` feeds to the
external classifier, in order. -/
def classifierInputs (audioData : List Int) : List (List Int) :=
  (List.range (audioData.length / 256)).map (frameData audioData)

/-- Left fold of the source's probability update `(a + p) / 2`
(an exponential moving average with weight 1/2). -/
def emaFold (p0 : ℚ) (ps : List ℚ) : ℚ := ps.foldl (fun a p => (a + p) / 2) p0

/-- Invariant of the accumulation loop after some prefix of frames:
`bound` is the time of the frontier (end of the processed prefix), `runs`
the run-counter state over the processed prefix.  Closed segments are
chronologically ordered and end before any open segment starts; the open
segment, when present, matches an open speech run and ends at or before the
frontier; segment counts track the run count. -/
def AccInv (bound : ℚ) (runs : Nat × Bool) (st : AccState) : Prop :=
  st.segments.Pairwise (fun x y => x.endTime ≤ y.startTime) ∧
  match st.currentSegment with
  | none =>
      (∀ s ∈ st.segments, s.endTime ≤ bound) ∧ runs.2 = false ∧
      st.segments.length = runs.1
  | some cs =>
      (∀ s ∈ st.segments, s.endTime ≤ cs.startTime) ∧
      cs.startTime ≤ cs.endTime ∧ cs.endTime ≤ bound ∧ runs.2 = true ∧
      st.segments.length + 1 = runs.1

/-- Decision procedure for the hypothesis of claim C10: the chunk walk
starting at `offset` reaches a `data` chunk without meeting any `fmt ` chunk
first (`false` when a `fmt ` chunk comes first, when the walk runs off the
end, or when a read is out of range). -/
def noFmtToData (b : List Nat) (offset : Nat) : Bool :=
  if _h : offset + 8 < b.length then
    match readTag b offset, readU32 b (offset + 4) with
    | some tag, some chunkSize =>
      if tag = [102, 109, 116, 32] then false
      else if tag = [100, 97, 116, 97] then true
      else noFmtToData b (offset + 8 + chunkSize + chunkSize % 2)
    | _, _ => false
  else false
termination_by b.length - offset
decreasing_by
  all_goals omega

/-- A concrete deterministic classifier used to instantiate universally
quantified theorems at concrete inputs: frame 0 is speech with
probability 1/2, every other frame is silence. -/
def demoClassify : Classifier := fun i _ => some ⟨1 / 2, i == 0⟩

/-- A concrete classifier reporting every frame as speech, probability 1 for
frame 0 and 0 afterwards. -/
def rampClassify : Classifier := fun i _ => some ⟨if i = 0 then 1 else 0, true⟩

/-- Helper: filtering with the same boolean predicate twice equals filtering
once. -/
theorem filter_self_idem {α : Type} (p : α → Bool) (l : List α) :
    (l.filter p).filter p = l.filter p := by
  induction l with
  | nil => rfl
  | cons a t ih =>
    by_cases h : p a = true
    · simp [List.filter_cons, h, ih]
    · simp only [Bool.not_eq_true] at h
      simp [List.filter_cons, h, ih]

/-- Claim C6: `filterSpeechSegments` keeps a segment iff `isSpeech` is true,
the duration in milliseconds is at least `minDurationMs`, and the probability
is at least `minProbability`; kept segments appear in their original relative
order (the output is a sublist of the input). -/
theorem c6_filter_characterization (segs : List Segment)
    (minDurationMs minProbability : ℚ) :
    (filterSpeechSegments segs minDurationMs minProbability).Sublist segs ∧
    ∀ s : Segment, s ∈ filterSpeechSegments segs minDurationMs minProbability ↔
      (s ∈ segs ∧ s.isSpeech = true ∧
        (s.endTime - s.startTime) * 1000 ≥ minDurationMs ∧
        s.probability ≥ minProbability) := by
  constructor
  · exact List.filter_sublist _
  · intro s
    simp [filterSpeechSegments, List.mem_filter, and_assoc]

/-- Claim C7: filtering is idempotent —
`Filter(Filter(S, d, p), d, p) = Filter(S, d, p)`. -/
theorem c7_filter_idempotent (segs : List Segment) (d p : ℚ) :
    filterSpeechSegments (filterSpeechSegments segs d p) d p =
      filterSpeechSegments segs d p :=
  filter_self_idem _ segs

/-- Claim C8: `totalFrames = floor(sampleCount / hopSize)`; when it is 0 both
`speechPercentage` and `avgProbability` are 0 (the guard avoids any division
by zero), and otherwise `speechPercentage = speechFrames / totalFrames * 100`. -/
theorem c8_stats (classify : Classifier) (audioData : List Int) (sampleRate : ℚ) :
    (processAudioWithVAD classify audioData sampleRate).totalFrames =
      audioData.length / 256 ∧
    ((processAudioWithVAD classify audioData sampleRate).totalFrames = 0 →
      (processAudioWithVAD classify audioData sampleRate).speechPercentage = 0 ∧
      (processAudioWithVAD classify audioData sampleRate).avgProbability = 0) ∧
    (0 < (processAudioWithVAD classify audioData sampleRate).totalFrames →
      (processAudioWithVAD classify audioData sampleRate).speechPercentage =
        ((processAudioWithVAD classify audioData sampleRate).speechFrames : ℚ) /
          ((processAudioWithVAD classify audioData sampleRate).totalFrames : ℚ) * 100) := by
  refine ⟨rfl, ?_, ?_⟩
  · intro h
    simp only [processAudioWithVAD] at h ⊢
    rw [if_neg (by omega), if_neg (by omega)]
    exact ⟨rfl, rfl⟩
  · intro h
    simp only [processAudioWithVAD] at h ⊢
    rw [if_pos h]

/-- Witness for C8 at the empty input (0 frames): both statistics are 0. -/
theorem c8_stats_witness :
    (processAudioWithVAD demoClassify [] 16000).speechPercentage = 0 ∧
    (processAudioWithVAD demoClassify [] 16000).avgProbability = 0 :=
  (c8_stats demoClassify [] 16000).2.1 rfl

/-- Every frame the loop of `processAudioWithVAD` visits is a full
256-sample slice, so the pad branch guarded by `frameData.length < 256`
(vad-service.ts lines 41-45) is unreachable. -/
theorem frameData_length_eq (audioData : List Int) (i : Nat)
    (h : i < audioData.length / 256) : (frameData audioData i).length = 256 := by
  simp only [frameData, List.length_take, List.length_drop]
  omega

/-- The processed frames concatenate to the first `n * 256` samples. -/
theorem flatten_frames (a : List Int) (n : Nat) (h : n * 256 ≤ a.length) :
    ((List.range n).map (frameData a)).flatten = a.take (n * 256) := by
  induction n with
  | zero => simp
  | succ m ih =>
    rw [List.range_succ, List.map_append, List.flatten_append, ih (by omega)]
    simp only [List.map_cons, List.map_nil, List.flatten_cons, List.flatten_nil,
      List.append_nil]
    have h256 : min (m * 256 + 256) a.length - m * 256 = 256 := by omega
    simp only [frameData, h256]
    rw [show (m + 1) * 256 = m * 256 + 256 by ring, List.take_add]

/-- Counterexample to claim C3 as stated: the input `[5, 7]` has a sample
count that is not a multiple of 256, yet nothing at all is passed to the
classifier — in particular the zero-padded final partial frame is not. -/
theorem c3_counterexample :
    ([5, 7] : List Int).length % 256 ≠ 0 ∧ classifierInputs [5, 7] = [] := by
  exact ⟨by decide, rfl⟩

/-- Claim C3 amended: the final partial frame is discarded, not padded.
Exactly `floor(length / 256)` frames are passed to the classifier, each a full
256-sample slice, and together they cover precisely the first
`256 * floor(length / 256)` samples — the trailing `length % 256` samples
reach no frame. -/
theorem c3_amended_frames (audioData : List Int) :
    (∀ f ∈ classifierInputs audioData, f.length = 256) ∧
    (classifierInputs audioData).flatten =
      audioData.take (256 * (audioData.length / 256)) ∧
    (classifierInputs audioData).length = audioData.length / 256 := by
  refine ⟨?_, ?_, ?_⟩
  · intro f hf
    simp only [classifierInputs, List.mem_map, List.mem_range] at hf
    obtain ⟨i, hi, rfl⟩ := hf
    exact frameData_length_eq audioData i hi
  · rw [show 256 * (audioData.length / 256) = (audioData.length / 256) * 256 by ring]
    exact flatten_frames audioData _ (by omega)
  · simp [classifierInputs]

/-- Claim C4: when the chunk walk terminates without finding a `data` chunk,
`parseWAVHeader` fails with the FormatError `noDataChunk` and returns no
header at all. -/
theorem c4_no_data_chunk (b : List Nat) (sr ch bps : Nat)
    (h0 : readTag b 0 = some [82, 73, 70, 70])
    (h8 : readTag b 8 = some [87, 65, 86, 69])
    (hw : chunkWalk b 12 0 0 0 = .ok (.noData sr ch bps)) :
    parseWAVHeader b = .error .noDataChunk ∧
    WAVError.noDataChunk.isFormatError = true ∧
    ∀ info : WAVInfo, parseWAVHeader b ≠ .ok info := by
  have hp : parseWAVHeader b = .error .noDataChunk := by
    simp [parseWAVHeader, h0, h8, hw]
  refine ⟨hp, rfl, ?_⟩
  intro info hcontra
  rw [hp] at hcontra
  exact Except.noConfusion hcontra

/-- Witness for C4: a buffer holding only the RIFF/WAVE preamble and no
chunks at all. -/
theorem c4_witness :
    parseWAVHeader [82, 73, 70, 70, 0, 0, 0, 0, 87, 65, 86, 69] =
      .error .noDataChunk ∧
    WAVError.noDataChunk.isFormatError = true ∧
    ∀ info : WAVInfo,
      parseWAVHeader [82, 73, 70, 70, 0, 0, 0, 0, 87, 65, 86, 69] ≠ .ok info :=
  c4_no_data_chunk _ 0 0 0 (by decide) (by decide)
    (by rw [chunkWalk]; simp)

/-- If the walk reaches a `data` chunk with no preceding `fmt ` chunk, the
chunk walk succeeds and hands back its carried format values unchanged. -/
theorem chunkWalk_of_noFmt (b : List Nat) (offset sr ch bps : Nat)
    (h : noFmtToData b offset = true) :
    ∃ dOff dSize, chunkWalk b offset sr ch bps =
      .ok (.found dOff dSize sr ch bps) := by
  rw [noFmtToData] at h
  split at h
  · rename_i hg
    rw [chunkWalk, dif_pos hg]
    split at h
    · rename_i tag chunkSize htag hsize
      by_cases hfmt : tag = [102, 109, 116, 32]
      · rw [if_pos hfmt] at h
        exact absurd h (by simp)
      · rw [if_neg hfmt] at h
        by_cases hdata : tag = [100, 97, 116, 97]
        · refine ⟨offset + 8, chunkSize, ?_⟩
          simp only [htag, hsize, if_neg hfmt, if_pos hdata]
        · rw [if_neg hdata] at h
          obtain ⟨dOff, dSize, hrec⟩ :=
            chunkWalk_of_noFmt b (offset + 8 + chunkSize + chunkSize % 2) sr ch bps h
          refine ⟨dOff, dSize, ?_⟩
          simp only [htag, hsize, if_neg hfmt, if_neg hdata]
          exact hrec
    · exact absurd h (by simp)
  · exact absurd h (by simp)
termination_by b.length - offset
decreasing_by
  all_goals omega

/-- Claim C10: a buffer with valid RIFF/WAVE tags whose chunk walk reaches a
`data` chunk with no preceding `fmt ` chunk parses successfully into a header
with `sampleRate = 0`, `channels = 0` and `bitsPerSample = 0` — the PCM and
16-bit validations run only inside a `fmt ` chunk. -/
theorem c10_no_fmt_header (b : List Nat)
    (h0 : readTag b 0 = some [82, 73, 70, 70])
    (h8 : readTag b 8 = some [87, 65, 86, 69])
    (hw : noFmtToData b 12 = true) :
    ∃ info : WAVInfo, parseWAVHeader b = .ok info ∧
      info.sampleRate = 0 ∧ info.channels = 0 ∧ info.bitsPerSample = 0 := by
  obtain ⟨dOff, dSize, hwalk⟩ := chunkWalk_of_noFmt b 12 0 0 0 hw
  refine ⟨⟨0, 0, 0, dOff, dSize⟩, ?_, rfl, rfl, rfl⟩
  simp [parseWAVHeader, h0, h8, hwalk]

/-- Witness for C10: RIFF/WAVE preamble followed directly by a `data` chunk
holding two bytes. -/
theorem c10_witness :
    ∃ info : WAVInfo,
      parseWAVHeader [82, 73, 70, 70, 0, 0, 0, 0, 87, 65, 86, 69,
        100, 97, 116, 97, 2, 0, 0, 0, 0, 0] = .ok info ∧
      info.sampleRate = 0 ∧ info.channels = 0 ∧ info.bitsPerSample = 0 :=
  c10_no_fmt_header _ (by decide) (by decide)
    (by rw [noFmtToData]; decide)

/-- Each sample contributes exactly two bytes. -/
theorem int16sToBytes_length (l : List Int) :
    (int16sToBytes l).length = 2 * l.length := by
  induction l with
  | nil => rfl
  | cons s rest ih =>
    simp only [int16sToBytes, int16ToBytes, List.length_append, List.length_cons,
      List.length_nil, ih, List.length_cons]
    omega

/-- The encoded buffer is the 44-byte header plus two bytes per sample. -/
theorem createWAVBuffer_length (samples : List Int) (sr ch : Nat) :
    (createWAVBuffer samples sr ch).length = 44 + 2 * samples.length := by
  have h := int16sToBytes_length samples
  simp only [createWAVBuffer, List.length_append, List.length_cons,
    List.length_nil]
  omega

/-- Decoding the sample bytes of an `Int16Array` recovers the samples, for
in-range signed 16-bit values. -/
theorem bytesToInt16_int16sToBytes (l : List Int)
    (h : ∀ s ∈ l, -32768 ≤ s ∧ s < 32768) :
    bytesToInt16 (int16sToBytes l) = l := by
  induction l with
  | nil => rfl
  | cons s rest ih =>
    have hs := h s (List.mem_cons_self s rest)
    have hrest : ∀ x ∈ rest, -32768 ≤ x ∧ x < 32768 := fun x hx =>
      h x (List.mem_cons_of_mem s hx)
    have hstep : bytesToInt16 (int16sToBytes (s :: rest)) =
        toInt16 ((s % 65536).toNat % 256 + 256 * ((s % 65536).toNat / 256)) ::
          bytesToInt16 (int16sToBytes rest) := rfl
    rw [hstep, ih hrest]
    congr 1
    have hu : (s % 65536).toNat % 256 + 256 * ((s % 65536).toNat / 256) =
        (s % 65536).toNat := by omega
    rw [hu]
    simp only [toInt16]
    split <;> omega

/-- Parsing a buffer built by `createWAVBuffer _ _ 1` succeeds and yields the
expected header (the stored sample rate is truncated to 32 bits by the
`setUint32` store). -/
theorem parse_createWAVBuffer (samples : List Int) (sampleRate : Nat)
    (hpos : 0 < samples.length)
    (hsize : 2 * samples.length < 4294967296) :
    parseWAVHeader (createWAVBuffer samples sampleRate 1) =
      .ok ⟨sampleRate % 4294967296, 1, 16, 44, 2 * samples.length⟩ := by
  have hlenB : (createWAVBuffer samples sampleRate 1).length =
      44 + 2 * samples.length := createWAVBuffer_length samples sampleRate 1
  have hT12 : readTag (createWAVBuffer samples sampleRate 1) 12 =
      some [102, 109, 116, 32] := rfl
  have hU16c : readU32 (createWAVBuffer samples sampleRate 1) 16 = some 16 := rfl
  have hF20 : readU16 (createWAVBuffer samples sampleRate 1) 20 = some 1 := rfl
  have hF22 : readU16 (createWAVBuffer samples sampleRate 1) 22 = some 1 := rfl
  have hF24 : readU32 (createWAVBuffer samples sampleRate 1) 24 =
      some (sampleRate % 4294967296) := by
    have h1 : readU32 (createWAVBuffer samples sampleRate 1) 24 =
        some (sampleRate % 256 + 256 * (sampleRate / 256 % 256) +
          65536 * (sampleRate / 65536 % 256) +
          16777216 * (sampleRate / 16777216 % 256)) := rfl
    rw [h1]
    congr 1
    omega
  have hF34 : readU16 (createWAVBuffer samples sampleRate 1) 34 = some 16 := rfl
  have hT36 : readTag (createWAVBuffer samples sampleRate 1) 36 =
      some [100, 97, 116, 97] := rfl
  have hU40 : readU32 (createWAVBuffer samples sampleRate 1) 40 =
      some (2 * samples.length) := by
    have h1 : readU32 (createWAVBuffer samples sampleRate 1) 40 =
        some (2 * samples.length % 256 + 256 * (2 * samples.length / 256 % 256) +
          65536 * (2 * samples.length / 65536 % 256) +
          16777216 * (2 * samples.length / 16777216 % 256)) := rfl
    rw [h1]
    congr 1
    omega
  have hw1 : chunkWalk (createWAVBuffer samples sampleRate 1) 12 0 0 0 =
      chunkWalk (createWAVBuffer samples sampleRate 1) 36
        (sampleRate % 4294967296) 1 16 := by
    rw [chunkWalk, dif_pos (by omega)]
    simp [hT12, hU16c, hF20, hF22, hF24, hF34]
  have hw2 : chunkWalk (createWAVBuffer samples sampleRate 1) 36
      (sampleRate % 4294967296) 1 16 =
      .ok (.found 44 (2 * samples.length) (sampleRate % 4294967296) 1 16) := by
    rw [chunkWalk, dif_pos (by omega)]
    simp [hT36, hU40]
  have hT0 : readTag (createWAVBuffer samples sampleRate 1) 0 =
      some [82, 73, 70, 70] := rfl
  have hT8 : readTag (createWAVBuffer samples sampleRate 1) 8 =
      some [87, 65, 86, 69] := rfl
  simp [parseWAVHeader, hT0, hT8, hw1, hw2]

/-- Extracting the mono samples back out of a buffer built by
`createWAVBuffer _ _ 1`, for any header locating the data region at byte 44
with one channel. -/
theorem extract_createWAVBuffer (samples : List Int) (sampleRate : Nat)
    (w : WAVInfo) (hch : w.channels = 1) (hoff : w.dataOffset = 44)
    (hds : w.dataSize = 2 * samples.length)
    (hrange : ∀ s ∈ samples, -32768 ≤ s ∧ s < 32768) :
    extractMonoAudio (createWAVBuffer samples sampleRate 1) w = some samples := by
  have hbytes : (int16sToBytes samples).length = 2 * samples.length :=
    int16sToBytes_length samples
  have hdrop : (createWAVBuffer samples sampleRate 1).drop 44 =
      int16sToBytes samples := rfl
  have htake : ((createWAVBuffer samples sampleRate 1).drop 44).take
      (2 * samples.length) = int16sToBytes samples := by
    rw [hdrop, ← hbytes, List.take_length]
  simp only [extractMonoAudio, hch, hoff, hds, htake, hbytes]
  rw [if_neg (by omega), if_neg (by norm_num)]
  rw [bytesToInt16_int16sToBytes samples hrange]

/-- Claim C1: round-trip.  For every non-empty buffer of signed 16-bit
samples and positive sample rate (with the buffer small enough to be
representable, i.e. its byte count fits the 32-bit size fields), parsing the
container built by `createWAVBuffer samples sampleRate 1` succeeds and
`extractMonoAudio` recovers exactly the original samples. -/
theorem c1_round_trip (samples : List Int) (sampleRate : Nat)
    (hne : samples ≠ []) (_hsr : 0 < sampleRate)
    (hrange : ∀ s ∈ samples, -32768 ≤ s ∧ s < 32768)
    (hsize : 2 * samples.length < 4294967296) :
    ∃ info : WAVInfo,
      parseWAVHeader (createWAVBuffer samples sampleRate 1) = .ok info ∧
      extractMonoAudio (createWAVBuffer samples sampleRate 1) info =
        some samples := by
  have hpos : 0 < samples.length := List.length_pos.mpr hne
  exact ⟨⟨sampleRate % 4294967296, 1, 16, 44, 2 * samples.length⟩,
    parse_createWAVBuffer samples sampleRate hpos hsize,
    extract_createWAVBuffer samples sampleRate _ rfl rfl rfl hrange⟩

/-- Witness for C1 at the concrete buffer `[1, -2]`, 16 kHz. -/
theorem c1_witness :
    ∃ info : WAVInfo,
      parseWAVHeader (createWAVBuffer [1, -2] 16000 1) = .ok info ∧
      extractMonoAudio (createWAVBuffer [1, -2] 16000 1) info = some [1, -2] :=
  c1_round_trip [1, -2] 16000 (by decide) (by decide) (by decide) (by decide)

/-- Claim C9: merging an empty segment list yields an empty buffer, and the
pipeline then reports the success-shaped outcome `speechFound = false` with
the original buffer as `processedBuffer` (no error); merging a non-empty list
concatenates the segments' samples in list order, with length the sum of the
parts. -/
theorem c9_merge_and_no_speech :
    (mergeAudioSegments [] = []) ∧
    (∀ segs : List Segment, segs ≠ [] →
      mergeAudioSegments segs = (segs.map fun s => s.data).flatten ∧
      (mergeAudioSegments segs).length = (segs.map fun s => s.data.length).sum) ∧
    (∀ (classify : Classifier) (buffer : List Nat) (minD minP : ℚ)
      (w : WAVInfo) (mono : List Int),
      parseWAVHeader buffer = .ok w →
      extractMonoAudio buffer w = some mono →
      filterSpeechSegments
        (processAudioWithVAD classify mono (w.sampleRate : ℚ)).segments
        minD minP = [] →
      extractSpeechSegments classify buffer minD minP =
        .ok ⟨buffer, buffer,
          processAudioWithVAD classify mono (w.sampleRate : ℚ), false⟩) := by
  refine ⟨rfl, ?_, ?_⟩
  · intro segs hne
    match segs, hne with
    | s :: rest, _ =>
      constructor
      · rfl
      · show ((s :: rest).map fun t => t.data).flatten.length = _
        simp [List.length_flatten, List.map_map, Function.comp_def]
  · intro classify buffer minD minP w mono hparse hmono hfilt
    simp only [extractSpeechSegments, hparse, hmono, hfilt, List.isEmpty_nil,
      if_true]

/-- Witness for C9: a one-sample silent WAV; no frame is ever classified,
the filtered list is empty, and the pipeline returns the original buffer
with `speechFound = false`. -/
theorem c9_witness :
    extractSpeechSegments demoClassify (createWAVBuffer [0] 16000 1)
      200 (2 / 5) =
      .ok ⟨createWAVBuffer [0] 16000 1, createWAVBuffer [0] 16000 1,
        processAudioWithVAD demoClassify [0] ((16000 : Nat) : ℚ), false⟩ :=
  c9_merge_and_no_speech.2.2 demoClassify (createWAVBuffer [0] 16000 1)
    200 (2 / 5) ⟨16000, 1, 16, 44, 2⟩ [0]
    (by
      rw [parse_createWAVBuffer [0] 16000 (by decide) (by decide)]
      norm_num)
    (extract_createWAVBuffer [0] 16000 ⟨16000, 1, 16, 44, 2⟩ rfl rfl rfl
      (by decide))
    (by decide)

/-- Extending an open segment by a run of speech frames folds the
probabilities with `(a + p) / 2`. -/
theorem run_extend_prob (classify : Classifier) (a : List Int) (sr : ℚ)
    (qs : List ℚ) :
    ∀ (st : AccState) (cs : Segment) (i0 : Nat),
    st.currentSegment = some cs →
    (∀ j < qs.length,
      classify (i0 + j) (frameData a (i0 + j)) = some ⟨qs.getD j 0, true⟩) →
    ∃ cs2, ((List.range' i0 qs.length).foldl (step classify a sr) st).currentSegment
        = some cs2 ∧
      cs2.probability = emaFold cs.probability qs := by
  induction qs with
  | nil =>
    intro st cs i0 hst _
    exact ⟨cs, by simpa using hst, rfl⟩
  | cons q rest ih =>
    intro st cs i0 hst hcl
    have hc0 : classify i0 (frameData a i0) = some ⟨q, true⟩ := by
      simpa using hcl 0 (by simp)
    obtain ⟨cs1, hcs1, hp1⟩ : ∃ cs1,
        (step classify a sr st i0).currentSegment = some cs1 ∧
        cs1.probability = (cs.probability + q) / 2 := by
      simp only [step, hc0, hst]
      exact ⟨_, rfl, rfl⟩
    have hshift : ∀ j < rest.length,
        classify (i0 + 1 + j) (frameData a (i0 + 1 + j)) =
          some ⟨rest.getD j 0, true⟩ := by
      intro j hj
      have := hcl (j + 1) (by simpa using Nat.succ_lt_succ hj)
      rw [show i0 + (j + 1) = i0 + 1 + j by omega] at this
      simpa using this
    obtain ⟨cs2, h2, hp2⟩ :=
      ih (step classify a sr st i0) cs1 (i0 + 1) hcs1 hshift
    refine ⟨cs2, ?_, ?_⟩
    · rw [show (q :: rest).length = rest.length + 1 from rfl, List.range'_succ,
        List.foldl_cons]
      exact h2
    · rw [hp2, hp1]
      rfl

/-- Claim C5: extending an open segment by a speech frame with probability
`p` stores exactly `(old + p) / 2`; consequently a segment built from a run
of speech probabilities `p0, p1, ..., pn` ends with the left fold of
`(a, p) ↦ (a + p) / 2` from `p0` — an exponential moving average with weight
1/2, which differs from the true running mean (e.g. on `0, 1, 1`). -/
theorem c5_probability_ema :
    (∀ (classify : Classifier) (a : List Int) (sr : ℚ) (st : AccState)
      (i : Nat) (cs : Segment) (r : FrameResult),
      st.currentSegment = some cs →
      classify i (frameData a i) = some r →
      r.isSpeech = true →
      ∃ cs2, (step classify a sr st i).currentSegment = some cs2 ∧
        cs2.probability = (cs.probability + r.probability) / 2) ∧
    (∀ (classify : Classifier) (a : List Int) (sr : ℚ) (st : AccState)
      (i0 : Nat) (ps : List ℚ),
      st.currentSegment = none → ps ≠ [] →
      (∀ j < ps.length,
        classify (i0 + j) (frameData a (i0 + j)) = some ⟨ps.getD j 0, true⟩) →
      ∃ cs, ((List.range' i0 ps.length).foldl (step classify a sr) st).currentSegment
          = some cs ∧
        cs.probability = emaFold (ps.headD 0) ps.tail) ∧
    emaFold 0 [1, 1] ≠ (0 + 1 + 1) / 3 := by
  refine ⟨?_, ?_, by norm_num [emaFold]⟩
  · intro classify a sr st i cs r hst hc hsp
    simp only [step, hc, hsp, hst, if_true]
    exact ⟨_, rfl, rfl⟩
  · intro classify a sr st i0 ps hst hne hcl
    match ps, hne with
    | p :: rest, _ =>
      have hc0 : classify i0 (frameData a i0) = some ⟨p, true⟩ := by
        simpa using hcl 0 (by simp)
      obtain ⟨cs0, hcs0, hp0⟩ : ∃ cs0,
          (step classify a sr st i0).currentSegment = some cs0 ∧
          cs0.probability = p := by
        simp only [step, hc0, hst]
        exact ⟨_, rfl, rfl⟩
      have hshift : ∀ j < rest.length,
          classify (i0 + 1 + j) (frameData a (i0 + 1 + j)) =
            some ⟨rest.getD j 0, true⟩ := by
        intro j hj
        have := hcl (j + 1) (by simpa using Nat.succ_lt_succ hj)
        rw [show i0 + (j + 1) = i0 + 1 + j by omega] at this
        simpa using this
      obtain ⟨cs2, h2, hp2⟩ :=
        run_extend_prob classify a sr rest (step classify a sr st i0) cs0
          (i0 + 1) hcs0 hshift
      refine ⟨cs2, ?_, ?_⟩
      · rw [show (p :: rest).length = rest.length + 1 from rfl, List.range'_succ,
          List.foldl_cons]
        exact h2
      · rw [hp2, hp0]
        rfl

/-- Witness for C5: both frames speech with probabilities 1 then 0; the
final probability is `(1 + 0) / 2 = 1/2 = emaFold 1 [0]`. -/
theorem c5_witness :
    ∃ cs, ((List.range' 0 2).foldl
        (step rampClassify (List.replicate 512 0) 16000) initState).currentSegment
      = some cs ∧
    cs.probability = emaFold (([(1 : ℚ), 0]).headD 0) ([(1 : ℚ), 0]).tail :=
  c5_probability_ema.2.1 rampClassify (List.replicate 512 0) 16000 initState 0
    [1, 0] rfl (by decide) (by decide)

/-- Run-counter on a silence frame: the run closes, the count is kept. -/
theorem runStep_false (p : Nat × Bool) : runStep p false = (p.1, false) := by
  cases p
  simp [runStep]

/-- Run-counter on a speech frame with no open run: a new run is counted. -/
theorem runStep_true_of_closed (p : Nat × Bool) (h : p.2 = false) :
    runStep p true = (p.1 + 1, true) := by
  cases p
  simp_all [runStep]

/-- Run-counter on a speech frame inside an open run: nothing new. -/
theorem runStep_true_of_open (p : Nat × Bool) (h : p.2 = true) :
    runStep p true = (p.1, true) := by
  cases p
  simp_all [runStep]

/-- The loop of `processAudioWithVAD` maintains `AccInv` over any processed
prefix, provided every frame of the prefix was classified. -/
theorem accInv_fold (classify : Classifier) (a : List Int) (sr : ℚ)
    (hsr : 0 < sr) :
    ∀ N : Nat, (∀ i < N, (classify i (frameData a i)).isSome = true) →
    AccInv (((N * 256 : Nat) : ℚ) / sr)
      (((List.range N).map (speechAt classify a)).foldl runStep (0, false))
      ((List.range N).foldl (step classify a sr) initState) := by
  intro N
  induction N with
  | zero =>
    intro _
    simp [AccInv, initState]
  | succ N ih =>
    intro hok
    have hIH := ih fun i hi => hok i (by omega)
    obtain ⟨r, hr⟩ : ∃ r, classify N (frameData a N) = some r :=
      Option.isSome_iff_exists.mp (hok N (by omega))
    have hspeech : speechAt classify a N = r.isSpeech := by
      simp [speechAt, hr]
    rw [List.range_succ, List.map_append, List.foldl_append, List.foldl_append]
    simp only [List.map_cons, List.map_nil, List.foldl_cons, List.foldl_nil,
      hspeech]
    set stN := (List.range N).foldl (step classify a sr) initState with hstN
    set rb := ((List.range N).map (speechAt classify a)).foldl runStep (0, false)
      with hrb
    have hTmono : ((N * 256 : Nat) : ℚ) / sr ≤ (((N + 1) * 256 : Nat) : ℚ) / sr := by
      have hnum : ((N * 256 : Nat) : ℚ) ≤ (((N + 1) * 256 : Nat) : ℚ) := by
        exact_mod_cast Nat.mul_le_mul_right 256 (Nat.le_succ N)
      exact div_le_div_of_nonneg_right hnum hsr.le
    have hTsucc : ((N * 256 : Nat) : ℚ) / sr + 256 / sr =
        (((N + 1) * 256 : Nat) : ℚ) / sr := by
      rw [div_add_div_same]
      congr 1
      push_cast
      ring
    have hTle : ((N * 256 : Nat) : ℚ) / sr ≤ ((N * 256 : Nat) : ℚ) / sr + 256 / sr := by
      have : (0 : ℚ) ≤ 256 / sr := by positivity
      linarith
    obtain ⟨hpw, hrest⟩ := hIH
    cases hcs : stN.currentSegment with
    | none =>
      rw [hcs] at hrest
      obtain ⟨hbound, hrun2, hlen⟩ := hrest
      cases hsp : r.isSpeech with
      | false =>
        simp only [AccInv, step, hr, hsp, hcs, Bool.false_eq_true, if_false,
          runStep_false]
        exact ⟨hpw, fun s hs => le_trans (hbound s hs) hTmono, trivial, hlen⟩
      | true =>
        simp only [AccInv, step, hr, hsp, hcs, if_true,
          runStep_true_of_closed rb hrun2]
        exact ⟨hpw, hbound, hTle, le_of_eq hTsucc, trivial, by omega⟩
    | some cs =>
      rw [hcs] at hrest
      obtain ⟨hbefore, hse, hend, hrun2, hlen⟩ := hrest
      cases hsp : r.isSpeech with
      | true =>
        simp only [AccInv, step, hr, hsp, hcs, if_true,
          runStep_true_of_open rb hrun2]
        refine ⟨hpw, hbefore, ?_, le_of_eq hTsucc, trivial, hlen⟩
        calc cs.startTime ≤ cs.endTime := hse
          _ ≤ ((N * 256 : Nat) : ℚ) / sr := hend
          _ ≤ ((N * 256 : Nat) : ℚ) / sr + 256 / sr := hTle
      | false =>
        simp only [AccInv, step, hr, hsp, hcs, Bool.false_eq_true, if_false,
          runStep_false]
        refine ⟨?_, ?_, trivial, ?_⟩
        · rw [List.pairwise_append]
          refine ⟨hpw, by simp, ?_⟩
          intro x hx y hy
          rw [List.mem_singleton] at hy
          subst hy
          exact hbefore x hx
        · intro s hs
          rw [List.mem_append] at hs
          rcases hs with hs | hs
          · exact le_trans (hbefore s hs)
              (le_trans hse (le_trans hend hTmono))
          · rw [List.mem_singleton] at hs
            subst hs
            exact le_trans hend hTmono
        · rw [List.length_append]
          simp
          omega

/-- Claim C2: for every classified frame sequence, the segments produced by
the accumulator are chronologically ordered with pairwise non-overlapping
`[startTime, endTime)` intervals, and the segment count equals the number of
maximal contiguous runs of speech frames (a trailing open run is closed and
pushed at end of input). -/
theorem c2_segment_invariants (classify : Classifier) (audioData : List Int)
    (sampleRate : ℚ) (hsr : 0 < sampleRate)
    (hok : ∀ i < audioData.length / 256,
      (classify i (frameData audioData i)).isSome = true) :
    (processAudioWithVAD classify audioData sampleRate).segments.Pairwise
      (fun x y => x.endTime ≤ y.startTime) ∧
    (processAudioWithVAD classify audioData sampleRate).segments.length =
      countRuns ((List.range (audioData.length / 256)).map
        (speechAt classify audioData)) := by
  have hInv := accInv_fold classify audioData sampleRate hsr
    (audioData.length / 256) hok
  have hseg : (processAudioWithVAD classify audioData sampleRate).segments =
      ((List.range (audioData.length / 256)).foldl
        (step classify audioData sampleRate) initState).segments ++
      ((List.range (audioData.length / 256)).foldl
        (step classify audioData sampleRate) initState).currentSegment.toList :=
    rfl
  have hruns : countRuns ((List.range (audioData.length / 256)).map
      (speechAt classify audioData)) =
      (((List.range (audioData.length / 256)).map
        (speechAt classify audioData)).foldl runStep (0, false)).1 := rfl
  obtain ⟨hpw, hrest⟩ := hInv
  cases hcs : ((List.range (audioData.length / 256)).foldl
      (step classify audioData sampleRate) initState).currentSegment with
  | none =>
    rw [hcs] at hrest
    obtain ⟨hbound, hrun2, hlen⟩ := hrest
    constructor
    · rw [hseg, hcs]
      simpa using hpw
    · rw [hseg, hcs, hruns]
      simpa using hlen
  | some cs =>
    rw [hcs] at hrest
    obtain ⟨hbefore, hse, hend, hrun2, hlen⟩ := hrest
    constructor
    · rw [hseg, hcs]
      simp only [Option.toList_some]
      rw [List.pairwise_append]
      refine ⟨hpw, by simp, ?_⟩
      intro x hx y hy
      rw [List.mem_singleton] at hy
      subst hy
      exact hbefore x hx
    · rw [hseg, hcs, hruns]
      simp only [Option.toList_some, List.length_append, List.length_singleton]
      omega

set_option maxRecDepth 8000 in
/-- Witness for C2: 512 samples (2 frames), speech on frame 0 only — a single
run, a single segment. -/
theorem c2_witness :
    (processAudioWithVAD demoClassify (List.replicate 512 0) 16000).segments.Pairwise
      (fun x y => x.endTime ≤ y.startTime) ∧
    (processAudioWithVAD demoClassify (List.replicate 512 0) 16000).segments.length =
      countRuns ((List.range ((List.replicate 512 (0 : Int)).length / 256)).map
        (speechAt demoClassify (List.replicate 512 0))) :=
  c2_segment_invariants demoClassify (List.replicate 512 0) 16000 (by norm_num)
    (by decide)

end AudioApi
